import Mathlib

/-!
Verification of the blocker service (ro-tex/blocker).

Shallow embedding of `blocker/blocker.go`:
* `sweepAndBlock` embeds `Blocker.SweepAndBlock` (fetch, sort, chunk, submit,
  checkpoint writes, the "no entries updated" error filter);
* `schedStep` embeds one iteration of the scheduling loop in `Blocker.Start`
  (sleep-length and consecutive-error bookkeeping);
* `writeToNginxCachePurger` embeds the lock/append hand-off of the same name;
* `dispatch` is modelled from the spec (see its doc comment): the adaptive
  batch dispatcher with blocked/failed counts is not part of the sources,
  only its unit test is, so it is reconstructed from the spec's §4.1.

Go `time.Time` values are modelled as naturals (nanoseconds since epoch; the
zero value is `0`), `time.Duration` as naturals counting nanoseconds, and Go
`error` values as `Option String` (`none` = `nil`, `some msg` = an error whose
`Error()` string is `msg`).  Context cancellation is not modelled: the
embedding describes executions in which the context is never done.
-/

namespace Blocker

/-- `leadsList sub s` is true iff `sub` occurs at the very beginning of `s`
(helper for the embedding of Go `strings.Contains`). -/
def leadsList : List Char → List Char → Bool
  | [], _ => true
  | _ :: _, [] => false
  | a :: as, b :: bs => a == b && leadsList as bs

/-- Helper for `stringContains`: does `sub` occur anywhere in `s`? -/
def containsAux (sub : List Char) : List Char → Bool
  | [] => leadsList sub []
  | c :: t => leadsList sub (c :: t) || containsAux sub t

/-- Embedding of Go `strings.Contains s sub`. -/
def stringContains (s sub : String) : Bool :=
  containsAux sub.data s.data

/-- Embedding of `errors.AddContext err ctx` from gitlab.com/NebulousLabs/errors:
the resulting error message is the context followed by the original message. -/
def addContext (ctx msg : String) : String :=
  ctx ++ ": " ++ msg

/-- `database.BlockedSkylink`, restricted to the two fields `SweepAndBlock`
reads: the skylink identifier and the time the record was added. -/
structure BlockedSkylink where
  skylink : String
  timestampAdded : Nat
deriving DecidableEq

/-- `skylinksChunk` (blocker.go): the maximum number of skylinks sent for
blocking simultaneously. -/
def skylinksChunk : Nat := 100

/-- Fuel-driven chunking helper; the fuel is an upper bound on the number of
chunks still to be produced (the list length suffices). -/
def chunksOfAux (n : Nat) : Nat → List α → List (List α)
  | 0, _ => []
  | _ + 1, [] => []
  | fuel + 1, x :: xs => (x :: xs).take n :: chunksOfAux n fuel ((x :: xs).drop n)

/-- Embedding of the chunking loop in `SweepAndBlock`
(`for idx := 0; idx < len; idx += skylinksChunk`): split a list into
consecutive chunks of at most `n` elements. -/
def chunksOf (n : Nat) (l : List α) : List (List α) :=
  chunksOfAux n l.length l

/-- The external behaviour `SweepAndBlock` interacts with: the skyd API call
`BlockSkylinks` and the store call `SetLatestBlockTimestamp`, each modelled as
a function from its argument to the Go error it returns. -/
structure SweepEnv where
  authority : List String → Option String
  writeCP : Nat → Option String

/-- Result of `DB.SkylinksToBlock`: the `ErrNoDocumentsFound` case, another
error, or a list of records. -/
inductive FetchResult where
  | noDocuments
  | fetchErr (msg : String)
  | ok (items : List BlockedSkylink)

/-- Observable behaviour of one `SweepAndBlock` call: every batch passed to
skyd's `BlockSkylinks` in order, every timestamp passed to
`SetLatestBlockTimestamp` in order, the number of empty-skylink warnings
logged, and the error the function returns. -/
structure SweepResult where
  submissions : List (List String)
  cpWrites : List Nat
  warnings : Nat
  error : Option String
deriving DecidableEq

/-- The `block` list collected by the inner loop of `SweepAndBlock` for one
chunk: skylinks of the records whose `Skylink` field is non-empty. -/
def chunkFilter (chunk : List BlockedSkylink) : List String :=
  (chunk.filter (fun sl => sl.skylink != "")).map (fun sl => sl.skylink)

/-- The `latestTimestamp` computed by the inner loop of `SweepAndBlock` for one
chunk: starting from the zero time, take each non-empty record's
`TimestampAdded` whenever it is later (`After`) than the accumulator. -/
def chunkLatest (chunk : List BlockedSkylink) : Nat :=
  (chunk.filter (fun sl => sl.skylink != "")).foldl
    (fun acc sl => max acc sl.timestampAdded) 0

/-- Number of `Warnf` calls the inner loop issues for one chunk: one per
record with an empty skylink. -/
def warningsOf (chunk : List BlockedSkylink) : Nat :=
  (chunk.filter (fun sl => sl.skylink == "")).length

/-- Error returned by `Blocker.blockSkylinks` (blocker.go): the skyd
`BlockSkylinks` error wrapped with the context "block skylinks failed".
The best-effort nginx write inside `blockSkylinks` never contributes to the
returned error and is modelled separately by `writeToNginxCachePurger`. -/
def blockSkylinksErr (env : SweepEnv) (batch : List String) : Option String :=
  (env.authority batch).map (addContext "block skylinks failed")

/-- The error check `err != nil && !strings.Contains(err.Error(), "no entries
updated")` used throughout `SweepAndBlock`: `some msg` means the error is
fatal and returned, `none` means execution continues. -/
def errFiltered : Option String → Option String
  | none => none
  | some msg => if stringContains msg "no entries updated" then none else some msg

/-- Embedding of the chunk loop of `SweepAndBlock`: submit each chunk's
filtered skylinks, then persist that chunk's latest timestamp, stopping with
an error unless the error message contains "no entries updated". -/
def processChunks (env : SweepEnv) : List (List BlockedSkylink) → SweepResult
  | [] => ⟨[], [], 0, none⟩
  | c :: cs =>
    match errFiltered (blockSkylinksErr env (chunkFilter c)) with
    | some msg =>
      ⟨[chunkFilter c], [], warningsOf c,
        some (addContext "failed to block skylinks list" msg)⟩
    | none =>
      match errFiltered (env.writeCP (chunkLatest c)) with
      | some msg => ⟨[chunkFilter c], [chunkLatest c], warningsOf c, some msg⟩
      | none =>
        let r := processChunks env cs
        ⟨chunkFilter c :: r.submissions, chunkLatest c :: r.cpWrites,
          warningsOf c + r.warnings, r.error⟩

/-- The comparison `skylinksToBlock[i].TimestampAdded.Before(...)` used by the
`sort.Slice` call in `SweepAndBlock`, relaxed to its reflexive closure. -/
def tsLE (a b : BlockedSkylink) : Prop :=
  a.timestampAdded ≤ b.timestampAdded

instance : DecidableRel tsLE := fun a b => Nat.decLe a.timestampAdded b.timestampAdded

instance : IsTotal BlockedSkylink tsLE :=
  ⟨fun a b => Nat.le_total a.timestampAdded b.timestampAdded⟩

instance : IsTrans BlockedSkylink tsLE :=
  ⟨fun _ _ _ hab hbc => Nat.le_trans hab hbc⟩

/-- Embedding of the `sort.Slice` call in `SweepAndBlock`: the records in
ascending order of `TimestampAdded` (`sort.Slice` guarantees ordering but not
stability; this embedding picks one sorted permutation). -/
def sortByAdded (l : List BlockedSkylink) : List BlockedSkylink :=
  l.insertionSort tsLE

/-- Embedding of `Blocker.SweepAndBlock`: branch on the fetch result, sort,
chunk, process every chunk, and finally persist the current time. -/
def sweepAndBlock (env : SweepEnv) (fetch : FetchResult) (now : Nat) : SweepResult :=
  match fetch with
  | .noDocuments => ⟨[], [now], 0, env.writeCP now⟩
  | .fetchErr msg => ⟨[], [], 0, some msg⟩
  | .ok items =>
    let r := processChunks env (chunksOf skylinksChunk (sortByAdded items))
    match r.error with
    | some _ => r
    | none =>
      ⟨r.submissions, r.cpWrites ++ [now], r.warnings, errFiltered (env.writeCP now)⟩

/-- One nanosecond-denominated second (Go `time.Second`). -/
def second : Nat := 1000000000

/-- `sleepBetweenScans` in the Standard build (`time.Minute`). -/
def sleepBetweenScans : Nat := 60 * second

/-- `sleepOnErrStep` (blocker.go): ten seconds. -/
def sleepOnErrStep : Nat := 10 * second

/-- `sleepOnErrSteps` (blocker.go): the cap on the error multiplier. -/
def sleepOnErrSteps : Nat := 6

/-- The loop-local state of the goroutine started by `Blocker.Start`. -/
structure SchedState where
  sleepLength : Nat
  numSubsequentErrs : Nat
deriving DecidableEq

/-- Classification of one `SweepAndBlock` result as seen by the loop in
`Start`: an error containing `database.ErrNoDocumentsFound`, another non-nil
error, or nil. -/
inductive SweepOutcome where
  | noDocs
  | fail (msg : String)
  | ok
deriving DecidableEq

/-- How the loop in `Start` classifies the error value `SweepAndBlock`
returned.  The embedded `sweepAndBlock` handles `ErrNoDocumentsFound`
internally and never returns it, so the classification only distinguishes
nil from non-nil. -/
def outcomeOf : Option String → SweepOutcome
  | none => SweepOutcome.ok
  | some m => SweepOutcome.fail m

/-- Embedding of one iteration of the loop in `Blocker.Start`: update
`sleepLength` and `numSubsequentErrs` from the outcome of the sweep. -/
def schedStep (st : SchedState) (o : SweepOutcome) : SchedState :=
  match o with
  | SweepOutcome.noDocs => ⟨sleepBetweenScans, 0⟩
  | SweepOutcome.fail _ =>
    let n := st.numSubsequentErrs + 1
    let n := if n > sleepOnErrSteps then sleepOnErrSteps else n
    ⟨sleepOnErrStep * n, n⟩
  | SweepOutcome.ok => ⟨sleepBetweenScans, 0⟩

/-- The loop in `Blocker.Start` run over a finite list of sweep outcomes. -/
def schedRun (st : SchedState) : List SweepOutcome → SchedState
  | [] => st
  | o :: os => schedRun (schedStep st o) os

/-- State of the filesystem objects `writeToNginxCachePurger` touches: whether
the sentinel lock directory exists, and the content of the purger list file
(`none` = the file does not exist). -/
structure NginxFS where
  lockExists : Bool
  file : Option (List Char)
deriving DecidableEq

/-- Fault model for one `writeToNginxCachePurger` call: whether `os.OpenFile`
fails, and whether the i-th `WriteString` call fails (a failing write is
modelled as writing nothing). -/
structure NginxEnv where
  openFails : Bool
  writeOk : Nat → Bool

/-- Result of `writeToNginxCachePurger`: the final filesystem state and the
returned error. -/
structure NginxResult where
  fs : NginxFS
  error : Option String

/-- One `f.WriteString` on a file opened `O_RDWR|O_CREATE` *without*
`O_APPEND`: the bytes are written at the current offset, replacing whatever
was there. -/
def overwriteAt (content : List Char) (off : Nat) (s : List Char) : List Char :=
  content.take off ++ s ++ content.drop (off + s.length)

/-- The write loop of `writeToNginxCachePurger`: write `s + "\n"` for each
skylink in order, starting at offset `off`, stopping on the first failing
write. -/
def writeLinesGo (writeOk : Nat → Bool) (i : Nat) (content : List Char) (off : Nat) :
    List String → List Char × Option String
  | [] => (content, none)
  | s :: rest =>
    if writeOk i then
      writeLinesGo writeOk (i + 1) (overwriteAt content off (s ++ "\n").data)
        (off + (s ++ "\n").data.length) rest
    else
      (content, some "write failed")

/-- Embedding of `Blocker.writeToNginxCachePurger`: acquire the sentinel
directory (every `os.Mkdir` attempt fails while the directory exists, so with
no concurrent release the 3-attempt loop succeeds iff the lock is free), open
the list file with `O_RDWR|O_CREATE` (created empty if absent, offset 0),
write one line per skylink, and remove the sentinel on every path after
acquisition (the deferred unlock). -/
def writeToNginxCachePurger (env : NginxEnv) (fs : NginxFS) (sls : List String) :
    NginxResult :=
  if fs.lockExists then
    ⟨fs, some (addContext "failed to acquire nginx lock" "file exists")⟩
  else if env.openFails then
    ⟨⟨false, fs.file⟩, some "open failed"⟩
  else
    let w := writeLinesGo env.writeOk 0 (fs.file.getD []) 0 sls
    ⟨⟨false, some w.1⟩, w.2⟩

/-- Modelled from the spec: `PendingItem` (§3) — the adaptive batch
dispatcher's view of a record. -/
structure PendingItem where
  identifier : String
  addedAt : Nat
deriving DecidableEq

/-- Modelled from the spec: `DispatchOutcome` (§3, §4.1) extended with the
ordered list of batches submitted to the Blocking Authority, so that the
submission sequence is observable. -/
structure DispatchResult where
  blocked : Nat
  failed : Nat
  newest : Option Nat
  trace : List (List String)
deriving DecidableEq

/-- Modelled from the spec: the Blocking Authority accepts a batch iff it
contains no failing identifier (§6: all-or-nothing, no partial
acknowledgment; `bad` says which identifiers it rejects). -/
def submitOk (bad : String → Bool) (batch : List PendingItem) : Bool :=
  batch.all (fun it => !bad it.identifier)

/-- Maximum of a list of timestamps, `none` when the list is empty. -/
def listMax : List Nat → Option Nat
  | [] => none
  | x :: xs =>
    match listMax xs with
    | none => some x
    | some m => some (max x m)

/-- Join of two optional timestamps, keeping the newest. -/
def omax : Option Nat → Option Nat → Option Nat
  | none, b => b
  | some x, none => some x
  | some x, some y => some (max x y)

/-- Modelled from the spec: the recursive core of the adaptive batch
dispatcher (§4.1), which is absent from the sources (only its unit test is
present).  Submit the batch whole; on success count every item as blocked and
record the newest `addedAt`; on failure of a singleton count it as failed;
otherwise bisect into two halves (floor/ceil split) and dispatch each half in
order, accumulating counts and the newest succeeding timestamp.  The fuel
argument only forces termination; it never runs out when it starts at the
batch length. -/
def dispatchGo (bad : String → Bool) : Nat → List PendingItem → DispatchResult
  | _, [] => ⟨0, 0, none, []⟩
  | 0, _ :: _ => ⟨0, 0, none, []⟩
  | fuel + 1, x :: xs =>
    if submitOk bad (x :: xs) then
      ⟨(x :: xs).length, 0, listMax ((x :: xs).map (fun it => it.addedAt)),
        [(x :: xs).map (fun it => it.identifier)]⟩
    else if xs = [] then
      ⟨0, 1, none, [[x.identifier]]⟩
    else
      let l := (x :: xs).take ((x :: xs).length / 2)
      let r := (x :: xs).drop ((x :: xs).length / 2)
      let rl := dispatchGo bad fuel l
      let rr := dispatchGo bad fuel r
      ⟨rl.blocked + rr.blocked, rl.failed + rr.failed, omax rl.newest rr.newest,
        (x :: xs).map (fun it => it.identifier) :: (rl.trace ++ rr.trace)⟩

/-- Modelled from the spec: the adaptive batch dispatcher `Dispatch` (§4.1):
drop empty identifiers, then submit the filtered list starting as one
batch. -/
def dispatch (bad : String → Bool) (items : List PendingItem) : DispatchResult :=
  dispatchGo bad (items.filter (fun it => it.identifier != "")).length
    (items.filter (fun it => it.identifier != ""))

/-- Number of items of a batch the Blocking Authority rejects. -/
def badCount (bad : String → Bool) (batch : List PendingItem) : Nat :=
  (batch.filter (fun it => bad it.identifier)).length

/-- A sweep environment in which neither skyd nor the store ever errors. -/
def env0 : SweepEnv := ⟨fun _ => none, fun _ => none⟩

/-- A sweep environment whose checkpoint writes always fail with the
"no entries updated" message. -/
def envNEUWrite : SweepEnv := ⟨fun _ => none, fun _ => some "no entries updated"⟩

/-- A Blocking Authority that rejects exactly the identifier "X". -/
def sbad : String → Bool := fun s => s == "X"

/-- Three pending items with ascending timestamps; only the middle one is
rejected by `sbad`. -/
def sitems : List PendingItem := [⟨"a", 1⟩, ⟨"X", 2⟩, ⟨"b", 3⟩]

/-- A fault-free nginx environment. -/
def nenv0 : NginxEnv := ⟨false, fun _ => true⟩

/-- An nginx environment whose second and later `WriteString` calls fail. -/
def nenvW : NginxEnv := ⟨false, fun i => i == 0⟩

end Blocker

namespace Blocker

/-! ### Helper lemmas -/

theorem containsAux_append (sub pre t : List Char) (h : containsAux sub t = true) :
    containsAux sub (pre ++ t) = true := by
  induction pre with
  | nil => simpa using h
  | cons c pre ih =>
    simp only [List.cons_append, containsAux, Bool.or_eq_true]
    exact Or.inr ih

theorem stringContains_addContext (ctx msg sub : String)
    (h : stringContains msg sub = true) :
    stringContains (addContext ctx msg) sub = true := by
  unfold stringContains addContext at *
  rw [String.data_append, String.data_append]
  exact containsAux_append _ (ctx.data ++ ": ".data) _ h

theorem errFiltered_map_addContext (ctx : String) (e : Option String)
    (h : errFiltered e = none) :
    errFiltered (e.map (addContext ctx)) = none := by
  cases e with
  | none => rfl
  | some msg =>
    have hc : stringContains msg "no entries updated" = true := by
      by_contra hc
      simp only [errFiltered, if_neg hc] at h
      exact Option.noConfusion h
    show errFiltered (some (addContext ctx msg)) = none
    simp only [errFiltered]
    rw [if_pos (stringContains_addContext ctx msg _ hc)]

theorem schedStep_fail (st : SchedState) (msg : String) :
    schedStep st (SweepOutcome.fail msg) =
      ⟨sleepOnErrStep * min (st.numSubsequentErrs + 1) sleepOnErrSteps,
        min (st.numSubsequentErrs + 1) sleepOnErrSteps⟩ := by
  have : (if st.numSubsequentErrs + 1 > sleepOnErrSteps then sleepOnErrSteps
      else st.numSubsequentErrs + 1) = min (st.numSubsequentErrs + 1) sleepOnErrSteps := by
    simp only [sleepOnErrSteps]
    split <;> omega
  simp only [schedStep, this]

theorem schedRun_replicate_fail (msg : String) :
    ∀ (N : Nat) (st : SchedState),
      schedRun st (List.replicate (N + 1) (SweepOutcome.fail msg)) =
        ⟨sleepOnErrStep * min (st.numSubsequentErrs + N + 1) sleepOnErrSteps,
          min (st.numSubsequentErrs + N + 1) sleepOnErrSteps⟩ := by
  intro N
  induction N with
  | zero =>
    intro st
    simp only [List.replicate, schedRun, schedStep_fail]
  | succ N ih =>
    intro st
    rw [List.replicate_succ]
    show schedRun (schedStep st (SweepOutcome.fail msg)) _ = _
    rw [schedStep_fail, ih]
    have : min (min (st.numSubsequentErrs + 1) sleepOnErrSteps + N + 1) sleepOnErrSteps
        = min (st.numSubsequentErrs + (N + 1) + 1) sleepOnErrSteps := by
      simp only [sleepOnErrSteps]
      omega
    rw [this]

theorem chunksOfAux_flatten (n : Nat) (hn : 0 < n) :
    ∀ (fuel : Nat) (l : List α), l.length ≤ fuel → (chunksOfAux n fuel l).flatten = l := by
  intro fuel
  induction fuel with
  | zero =>
    intro l hl
    rw [List.length_eq_zero.mp (Nat.le_zero.mp hl)]
    rfl
  | succ fuel ih =>
    intro l hl
    cases l with
    | nil => rfl
    | cons x xs =>
      simp only [chunksOfAux, List.flatten_cons]
      rw [ih ((x :: xs).drop n) ?_, List.take_append_drop]
      have hlen : ((x :: xs).drop n).length = (x :: xs).length - n := List.length_drop n _
      have : (x :: xs).length ≤ fuel + 1 := hl
      simp only [List.length_cons] at this ⊢
      omega

theorem chunksOf_flatten (n : Nat) (hn : 0 < n) (l : List α) :
    (chunksOf n l).flatten = l :=
  chunksOfAux_flatten n hn l.length l (Nat.le_refl _)

theorem mem_chunksOfAux (n : Nat) (hn : 0 < n) :
    ∀ (fuel : Nat) (l : List α) (c : List α), l.length ≤ fuel →
      c ∈ chunksOfAux n fuel l → c ≠ [] ∧ c.length ≤ n ∧ c ⊆ l := by
  intro fuel
  induction fuel with
  | zero =>
    intro l c _ hc
    exact absurd hc (List.not_mem_nil c)
  | succ fuel ih =>
    intro l c hl hc
    cases l with
    | nil => exact absurd hc (List.not_mem_nil c)
    | cons x xs =>
      simp only [chunksOfAux, List.mem_cons] at hc
      rcases hc with rfl | hc
      · refine ⟨?_, ?_, List.take_subset n (x :: xs)⟩
        · obtain ⟨m, rfl⟩ := Nat.exists_eq_succ_of_ne_zero (Nat.pos_iff_ne_zero.mp hn)
          simp [List.take_succ_cons]
        · rw [List.length_take]
          exact Nat.min_le_left n _
      · have hdl : ((x :: xs).drop n).length ≤ fuel := by
          have : (x :: xs).length ≤ fuel + 1 := hl
          rw [List.length_drop]
          simp only [List.length_cons] at this ⊢
          omega
        obtain ⟨h1, h2, h3⟩ := ih ((x :: xs).drop n) c hdl hc
        exact ⟨h1, h2, fun a ha => List.drop_subset n (x :: xs) (h3 ha)⟩

theorem mem_chunksOf (n : Nat) (hn : 0 < n) (l : List α) (c : List α)
    (hc : c ∈ chunksOf n l) : c ≠ [] ∧ c.length ≤ n ∧ c ⊆ l :=
  mem_chunksOfAux n hn l.length l c (Nat.le_refl _) hc

theorem processChunks_ok (env : SweepEnv)
    (hauth : ∀ b, errFiltered (blockSkylinksErr env b) = none)
    (hw : ∀ t, errFiltered (env.writeCP t) = none) :
    ∀ cs, processChunks env cs =
      ⟨cs.map chunkFilter, cs.map chunkLatest, (cs.map warningsOf).sum, none⟩ := by
  intro cs
  induction cs with
  | nil => rfl
  | cons c cs ih =>
    simp only [processChunks, hauth (chunkFilter c), hw (chunkLatest c), ih,
      List.map_cons, List.sum_cons]

theorem mem_submissions_processChunks (env : SweepEnv) :
    ∀ (cs : List (List BlockedSkylink)) (b : List String),
      b ∈ (processChunks env cs).submissions → ∃ c ∈ cs, b = chunkFilter c := by
  intro cs
  induction cs with
  | nil =>
    intro b hb
    exact absurd hb (List.not_mem_nil b)
  | cons c cs ih =>
    intro b hb
    simp only [processChunks] at hb
    split at hb
    · simp only [List.mem_singleton] at hb
      exact ⟨c, List.mem_cons_self c cs, hb⟩
    · split at hb
      · simp only [List.mem_singleton] at hb
        exact ⟨c, List.mem_cons_self c cs, hb⟩
      · simp only [List.mem_cons] at hb
        rcases hb with rfl | hb
        · exact ⟨c, List.mem_cons_self c cs, rfl⟩
        · obtain ⟨d, hd, hbd⟩ := ih b hb
          exact ⟨d, List.mem_cons_of_mem c hd, hbd⟩

theorem sweepAndBlock_ok_submissions (env : SweepEnv) (items : List BlockedSkylink)
    (now : Nat) :
    (sweepAndBlock env (FetchResult.ok items) now).submissions =
      (processChunks env (chunksOf skylinksChunk (sortByAdded items))).submissions := by
  simp only [sweepAndBlock]
  split <;> rfl

theorem submitOk_of_badCount_zero (bad : String → Bool) (batch : List PendingItem)
    (h : badCount bad batch = 0) : submitOk bad batch = true := by
  have hall : ∀ it ∈ batch, ¬ (fun it => bad it.identifier) it = true :=
    List.filter_eq_nil_iff.mp (List.length_eq_zero.mp h)
  rw [submitOk, List.all_eq_true]
  intro it hit
  rw [Bool.not_eq_true' (bad it.identifier)]
  exact Bool.eq_false_iff.mpr (hall it hit)

theorem badCount_zero_of_submitOk (bad : String → Bool) (batch : List PendingItem)
    (h : submitOk bad batch = true) : badCount bad batch = 0 := by
  rw [badCount, List.length_eq_zero, List.filter_eq_nil_iff]
  intro it hit hb
  have := (List.all_eq_true.mp h) it hit
  rw [Bool.not_eq_true' (bad it.identifier)] at this
  rw [this] at hb
  exact Bool.noConfusion hb

theorem badCount_append (bad : String → Bool) (a b : List PendingItem) :
    badCount bad (a ++ b) = badCount bad a + badCount bad b := by
  simp [badCount, List.filter_append]

theorem listMax_cons (x : Nat) (t : List Nat) :
    listMax (x :: t) = omax (some x) (listMax t) := by
  cases h : listMax t <;> simp [listMax, omax, h]

theorem omax_assoc (a b c : Option Nat) :
    omax (omax a b) c = omax a (omax b c) := by
  cases a <;> cases b <;> cases c <;> simp [omax, Nat.max_assoc]

theorem listMax_append (a b : List Nat) :
    listMax (a ++ b) = omax (listMax a) (listMax b) := by
  induction a with
  | nil => rfl
  | cons x a ih => rw [List.cons_append, listMax_cons, ih, listMax_cons, omax_assoc]

theorem dispatchGo_success (bad : String → Bool) (fuel : Nat) (batch : List PendingItem)
    (hok : submitOk bad batch = true) (hf : batch.length ≤ fuel) :
    dispatchGo bad fuel batch =
      ⟨batch.length, 0, listMax (batch.map (fun it => it.addedAt)),
        if batch = [] then [] else [batch.map (fun it => it.identifier)]⟩ := by
  cases batch with
  | nil => cases fuel <;> rfl
  | cons x xs =>
    cases fuel with
    | zero => exact absurd hf (by simp)
    | succ fuel =>
      simp only [dispatchGo, if_pos hok]
      rw [if_neg (List.cons_ne_nil x xs)]

theorem dispatchGo_head (bad : String → Bool) (fuel : Nat) (batch : List PendingItem)
    (hb : batch ≠ []) (hf : batch.length ≤ fuel) :
    (dispatchGo bad fuel batch).trace.head? =
      some (batch.map (fun it => it.identifier)) := by
  cases batch with
  | nil => exact absurd rfl hb
  | cons x xs =>
    cases fuel with
    | zero => exact absurd hf (by simp)
    | succ fuel =>
      by_cases hok : submitOk bad (x :: xs) = true
      · simp only [dispatchGo, if_pos hok]
        rfl
      · by_cases hxs : xs = []
        · subst hxs
          simp only [dispatchGo, if_neg hok, if_pos rfl]
          rfl
        · simp only [dispatchGo, if_neg hok, if_neg hxs]
          rfl

theorem dispatchGo_newest (bad : String → Bool) :
    ∀ (fuel : Nat) (batch : List PendingItem), batch.length ≤ fuel →
      (dispatchGo bad fuel batch).newest =
        listMax ((batch.filter (fun it => !bad it.identifier)).map
          (fun it => it.addedAt)) := by
  intro fuel
  induction fuel with
  | zero =>
    intro batch hb
    rw [List.length_eq_zero.mp (Nat.le_zero.mp hb)]
    rfl
  | succ fuel ih =>
    intro batch hb
    cases batch with
    | nil => rfl
    | cons x xs =>
      by_cases hok : submitOk bad (x :: xs) = true
      · have hfil : (x :: xs).filter (fun it => !bad it.identifier) = x :: xs :=
          List.filter_eq_self.mpr (fun a ha => (List.all_eq_true.mp hok) a ha)
        simp only [dispatchGo, if_pos hok, hfil]
      · by_cases hxs : xs = []
        · subst hxs
          have hbx : bad x.identifier = true := by
            by_contra hbx
            apply hok
            rw [submitOk, List.all_eq_true]
            intro it hit
            rw [List.mem_singleton.mp hit, Bool.not_eq_true' (bad x.identifier)]
            exact Bool.eq_false_iff.mpr hbx
          simp [dispatchGo, hok, hbx, listMax]
        · have h2 : 1 ≤ xs.length := by
            cases xs with
            | nil => exact absurd rfl hxs
            | cons y ys => simp
          have hble : xs.length + 1 ≤ fuel + 1 := hb
          have hkl : ((x :: xs).take ((xs.length + 1) / 2)).length ≤ fuel := by
            rw [List.length_take]
            simp only [List.length_cons]
            omega
          have hkr : ((x :: xs).drop ((xs.length + 1) / 2)).length ≤ fuel := by
            rw [List.length_drop]
            simp only [List.length_cons]
            omega
          simp only [dispatchGo, if_neg hok, if_neg hxs, List.length_cons]
          rw [ih _ hkl, ih _ hkr, ← listMax_append, ← List.map_append,
            ← List.filter_append, List.take_append_drop]

theorem dispatchGo_counts (bad : String → Bool) :
    ∀ (fuel : Nat) (batch : List PendingItem), batch.length ≤ fuel →
      badCount bad batch = 1 →
      (dispatchGo bad fuel batch).blocked + 1 = batch.length ∧
      (dispatchGo bad fuel batch).failed = 1 ∧
      ∃ y, y ∈ batch ∧ bad y.identifier = true ∧
        [y.identifier] ∈ (dispatchGo bad fuel batch).trace := by
  intro fuel
  induction fuel with
  | zero =>
    intro batch hb h1
    rw [List.length_eq_zero.mp (Nat.le_zero.mp hb)] at h1
    exact absurd h1 (by simp [badCount])
  | succ fuel ih =>
    intro batch hb h1
    cases batch with
    | nil => exact absurd h1 (by simp [badCount])
    | cons x xs =>
      have hok : ¬ submitOk bad (x :: xs) = true := by
        intro hok
        rw [badCount_zero_of_submitOk bad (x :: xs) hok] at h1
        exact Nat.noConfusion h1
      by_cases hxs : xs = []
      · subst hxs
        have hbx : bad x.identifier = true := by
          by_contra hbx
          have h0 : badCount bad [x] = 0 := by
            rw [badCount, List.length_eq_zero, List.filter_eq_nil_iff]
            intro it hit
            rw [List.mem_singleton.mp hit]
            exact hbx
          rw [h0] at h1
          exact Nat.noConfusion h1
        refine ⟨?_, ?_, x, List.mem_singleton_self x, hbx, ?_⟩ <;>
          simp [dispatchGo, hok]
      · have h2 : 1 ≤ xs.length := by
          cases xs with
          | nil => exact absurd rfl hxs
          | cons y ys => simp
        have hble : xs.length + 1 ≤ fuel + 1 := hb
        have hsplit := List.take_append_drop ((xs.length + 1) / 2) (x :: xs)
        have hkl : ((x :: xs).take ((xs.length + 1) / 2)).length ≤ fuel := by
          rw [List.length_take]
          simp only [List.length_cons]
          omega
        have hkr : ((x :: xs).drop ((xs.length + 1) / 2)).length ≤ fuel := by
          rw [List.length_drop]
          simp only [List.length_cons]
          omega
        have hlensum : ((x :: xs).take ((xs.length + 1) / 2)).length +
            ((x :: xs).drop ((xs.length + 1) / 2)).length = xs.length + 1 := by
          rw [← List.length_append, hsplit]
          rfl
        have hcnt : badCount bad ((x :: xs).take ((xs.length + 1) / 2)) +
            badCount bad ((x :: xs).drop ((xs.length + 1) / 2)) = 1 := by
          rw [← badCount_append, hsplit]
          exact h1
        simp only [dispatchGo, if_neg hok, if_neg hxs, List.length_cons]
        rcases Nat.eq_zero_or_pos
            (badCount bad ((x :: xs).take ((xs.length + 1) / 2))) with hL0 | hLpos
        · have hR1 : badCount bad ((x :: xs).drop ((xs.length + 1) / 2)) = 1 := by
            omega
          have hLok := submitOk_of_badCount_zero bad _ hL0
          have hLsucc := dispatchGo_success bad fuel _ hLok hkl
          obtain ⟨ihb, ihf, y, hy, hby, hyt⟩ := ih _ hkr hR1
          refine ⟨?_, ?_, y, List.drop_subset _ _ hy, hby, ?_⟩
          · rw [hLsucc]
            simp only [List.length_cons]
            omega
          · rw [hLsucc]
            simp only
            omega
          · rw [hLsucc]
            simp only
            exact List.mem_cons_of_mem _ (List.mem_append_right _ hyt)
        · have hL1 : badCount bad ((x :: xs).take ((xs.length + 1) / 2)) = 1 := by
            omega
          have hR0 : badCount bad ((x :: xs).drop ((xs.length + 1) / 2)) = 0 := by
            omega
          have hRok := submitOk_of_badCount_zero bad _ hR0
          have hRsucc := dispatchGo_success bad fuel _ hRok hkr
          obtain ⟨ihb, ihf, y, hy, hby, hyt⟩ := ih _ hkl hL1
          refine ⟨?_, ?_, y, List.take_subset _ _ hy, hby, ?_⟩
          · rw [hRsucc]
            simp only [List.length_cons]
            omega
          · rw [hRsucc]
            simp only
            omega
          · rw [hRsucc]
            simp only
            exact List.mem_cons_of_mem _ (List.mem_append_left _ hyt)

/-! ### Claim theorems -/

/-- C1: when the Blocking Authority rejects exactly the batches containing a
rejected identifier and exactly one item of the dispatched list is rejected,
the spec-modelled dispatcher counts `blocked = total − 1` and `failed = 1`,
its first submission is the whole list, and the halving recursion isolates
the failing item as a singleton submission. -/
theorem c1_single_failure_isolated (bad : String → Bool) (items : List PendingItem)
    (hne : ∀ it ∈ items, it.identifier ≠ "") (h1 : badCount bad items = 1) :
    (dispatch bad items).blocked = items.length - 1 ∧
    (dispatch bad items).failed = 1 ∧
    (dispatch bad items).trace.head? = some (items.map (fun it => it.identifier)) ∧
    ∃ y, y ∈ items ∧ bad y.identifier = true ∧
      [y.identifier] ∈ (dispatch bad items).trace := by
  have hfil : items.filter (fun it => it.identifier != "") = items :=
    List.filter_eq_self.mpr (fun a ha => bne_iff_ne.mpr (hne a ha))
  have hne2 : items ≠ [] := by
    intro he
    rw [he] at h1
    exact absurd h1 (by simp [badCount])
  have hcounts := dispatchGo_counts bad items.length items (Nat.le_refl _) h1
  have hhead := dispatchGo_head bad items.length items hne2 (Nat.le_refl _)
  rw [dispatch, hfil]
  exact ⟨by omega, hcounts.2.1, hhead, hcounts.2.2⟩

/-- C1 witness: three items `a@1, X@2, b@3` with only `X` rejected. -/
theorem c1_single_failure_isolated_witness :
    (dispatch sbad sitems).blocked = sitems.length - 1 ∧
    (dispatch sbad sitems).failed = 1 ∧
    (dispatch sbad sitems).trace.head? = some (sitems.map (fun it => it.identifier)) ∧
    ∃ y, y ∈ sitems ∧ sbad y.identifier = true ∧
      [y.identifier] ∈ (dispatch sbad sitems).trace :=
  c1_single_failure_isolated sbad sitems (by decide) (by decide)

/-- C2 counterexample: for `sitems = [a@1, X@2, b@3]` with only `X` rejected,
the only successful submission strictly before the failing item's position is
`["a"]` with `addedAt = 1`, yet the dispatcher's checkpoint candidate is `3`
(the newest among all successful submissions, including `["b"]` after the
failure), so the claim's "strictly before the failing item's position"
characterisation is false. -/
theorem c2_checkpoint_counterexample :
    (dispatch sbad sitems).trace =
      [["a", "X", "b"], ["a"], ["X", "b"], ["X"], ["b"]] ∧
    (dispatch sbad sitems).newest = some 3 ∧
    (dispatch sbad sitems).newest ≠ some 1 := by
  refine ⟨by decide, by decide, by decide⟩

/-- C2 (amended): the checkpoint candidate returned by the spec-modelled
dispatcher is the newest `addedAt` among all non-empty-identifier items the
Authority does not reject — exactly the items that end up in successful
submissions — which can include items positioned after the failing one. -/
theorem c2_checkpoint_newest_among_succeeded (bad : String → Bool)
    (items : List PendingItem) :
    (dispatch bad items).newest =
      listMax (((items.filter (fun it => it.identifier != "")).filter
        (fun it => !bad it.identifier)).map (fun it => it.addedAt)) :=
  dispatchGo_newest bad _ _ (Nat.le_refl _)

/-- C3: evaluation of the success branch of `Start`: an error-free sweep that
processed one item yields the `ok` outcome, and the loop then resets the
error counter to 0 but sets the idle interval to `sleepBetweenScans`
(one minute in the Standard build), not 0 as the claim (and the comment on
`sleepLength` in blocker.go) states. -/
theorem c3_success_branch_evaluated (st : SchedState) :
    outcomeOf (sweepAndBlock env0 (FetchResult.ok [⟨"a", 1⟩]) 9).error =
      SweepOutcome.ok ∧
    (schedStep st SweepOutcome.ok).numSubsequentErrs = 0 ∧
    (schedStep st SweepOutcome.ok).sleepLength = sleepBetweenScans ∧
    sleepBetweenScans ≠ 0 :=
  ⟨by decide, rfl, rfl, by decide⟩

/-- C4: the log file is opened `O_RDWR|O_CREATE` without `O_APPEND`
(blocker.go line 253), so writing starts at offset 0 and overwrites the
existing content: with prior content `"old-entry\n"`, handing off `"abc"`
should give `"old-entry\nabc\n"` but produces `"abc\nentry\n"`.  On an
absent file the identifiers are written as newline-terminated lines. -/
theorem c4_log_overwrites_not_appends :
    (writeToNginxCachePurger nenv0 ⟨false, some "old-entry\n".data⟩ ["abc"]).fs.file =
      some "abc\nentry\n".data ∧
    some "abc\nentry\n".data ≠ some ("old-entry\n" ++ "abc\n").data ∧
    (writeToNginxCachePurger nenv0 ⟨false, none⟩ ["a", "b"]).fs.file =
      some "a\nb\n".data :=
  ⟨by decide, by decide, by decide⟩

/-- C5 counterexample: a fetched record with an empty skylink forms a chunk
whose collected `block` list is empty, and that empty batch is still
submitted to skyd, so not every submitted batch is non-empty. -/
theorem c5_empty_batch_submitted :
    ¬ (∀ b ∈ (sweepAndBlock env0 (FetchResult.ok [⟨"", 5⟩]) 9).submissions,
        b ≠ ([] : List String)) := by decide

/-- C5 (amended): the records are sorted ascending by `TimestampAdded` and cut
into consecutive chunks of at most `skylinksChunk = 100` whose concatenation
is the sorted list (ascending within and across batches); every submitted
batch comes from such a chunk and has at most 100 identifiers, and — provided
every fetched record has a non-empty skylink — is non-empty. -/
theorem c5_batches_sorted_bounded (env : SweepEnv) (items : List BlockedSkylink)
    (now : Nat) (hids : ∀ it ∈ items, it.skylink ≠ "") :
    List.Sorted tsLE (sortByAdded items) ∧
    List.Perm (sortByAdded items) items ∧
    (chunksOf skylinksChunk (sortByAdded items)).flatten = sortByAdded items ∧
    ∀ b ∈ (sweepAndBlock env (FetchResult.ok items) now).submissions,
      b ≠ [] ∧ b.length ≤ skylinksChunk ∧
      ∃ c, c ∈ chunksOf skylinksChunk (sortByAdded items) ∧ b = chunkFilter c := by
  refine ⟨List.sorted_insertionSort tsLE items, List.perm_insertionSort tsLE items,
    chunksOf_flatten skylinksChunk (by decide) _, ?_⟩
  intro b hb
  rw [sweepAndBlock_ok_submissions] at hb
  obtain ⟨c, hc, rfl⟩ := mem_submissions_processChunks env _ b hb
  obtain ⟨hcne, hclen, hcsub⟩ := mem_chunksOf skylinksChunk (by decide) _ c hc
  have hcf : c.filter (fun sl => sl.skylink != "") = c := by
    apply List.filter_eq_self.mpr
    intro a ha
    exact bne_iff_ne.mpr (hids a ((List.perm_insertionSort tsLE items).subset (hcsub ha)))
  refine ⟨?_, ?_, c, hc, rfl⟩
  · rw [chunkFilter, hcf]
    intro hmap
    exact hcne (List.map_eq_nil_iff.mp hmap)
  · rw [chunkFilter, hcf, List.length_map]
    exact hclen

/-- C5 witness: two non-empty records arriving out of order. -/
theorem c5_batches_sorted_bounded_witness :
    List.Sorted tsLE (sortByAdded [⟨"b", 2⟩, ⟨"a", 1⟩]) ∧
    ((["a", "b"] : List String) ≠ [] ∧ (["a", "b"] : List String).length ≤ skylinksChunk ∧
      ∃ c, c ∈ chunksOf skylinksChunk (sortByAdded [⟨"b", 2⟩, ⟨"a", 1⟩]) ∧
        ["a", "b"] = chunkFilter c) := by
  have h := c5_batches_sorted_bounded env0 [⟨"b", 2⟩, ⟨"a", 1⟩] 5 (by decide)
  exact ⟨h.1, h.2.2.2 ["a", "b"] (by decide)⟩

/-- C6: the consecutive-error counter never exceeds `sleepOnErrSteps = 6`
after any loop iteration, and after `N ≥ 1` consecutive erroring sweeps from
a zero-counter state the idle interval is `sleepOnErrStep × min N 6`
(10 s × min N 6, capped at 60 s). -/
theorem c6_error_backoff_linear_capped :
    (∀ st o, (schedStep st o).numSubsequentErrs ≤ sleepOnErrSteps) ∧
    (∀ (msg : String) (N : Nat) (st : SchedState),
      st.numSubsequentErrs = 0 → 1 ≤ N →
      schedRun st (List.replicate N (SweepOutcome.fail msg)) =
        ⟨sleepOnErrStep * min N sleepOnErrSteps, min N sleepOnErrSteps⟩) := by
  constructor
  · intro st o
    cases o with
    | noDocs => exact Nat.zero_le _
    | ok => exact Nat.zero_le _
    | fail msg =>
      rw [schedStep_fail]
      exact Nat.min_le_right _ _
  · intro msg N st h0 hN
    obtain ⟨M, rfl⟩ : ∃ M, N = M + 1 := ⟨N - 1, by omega⟩
    rw [schedRun_replicate_fail, h0]
    simp

/-- C6 witness: eight consecutive failures starting from the initial state. -/
theorem c6_error_backoff_linear_capped_witness :
    schedRun ⟨0, 0⟩ (List.replicate 8 (SweepOutcome.fail "e")) =
      ⟨sleepOnErrStep * min 8 sleepOnErrSteps, min 8 sleepOnErrSteps⟩ :=
  c6_error_backoff_linear_capped.2 "e" 8 ⟨0, 0⟩ rfl (by decide)

/-- C7: a sweep whose fetch reports no documents writes the current time to
the checkpoint store; when that write succeeds the sweep returns nil and the
scheduler resets the consecutive-error counter to 0. -/
theorem c7_nowork_advances_checkpoint (env : SweepEnv) (now : Nat) (st : SchedState)
    (h : env.writeCP now = none) :
    (sweepAndBlock env FetchResult.noDocuments now).cpWrites = [now] ∧
    (sweepAndBlock env FetchResult.noDocuments now).error = none ∧
    (schedStep st (outcomeOf
      (sweepAndBlock env FetchResult.noDocuments now).error)).numSubsequentErrs = 0 := by
  have he : (sweepAndBlock env FetchResult.noDocuments now).error = none := h
  refine ⟨rfl, he, ?_⟩
  rw [he]
  rfl

/-- C7 witness: a store whose writes always succeed. -/
theorem c7_nowork_advances_checkpoint_witness :
    (sweepAndBlock env0 FetchResult.noDocuments 7).cpWrites = [7] ∧
    (sweepAndBlock env0 FetchResult.noDocuments 7).error = none ∧
    (schedStep ⟨3, 4⟩ (outcomeOf
      (sweepAndBlock env0 FetchResult.noDocuments 7).error)).numSubsequentErrs = 0 :=
  c7_nowork_advances_checkpoint env0 7 ⟨3, 4⟩ rfl

/-- C8: empty-skylink records are never part of a batch submitted to skyd;
an error-free sweep logs exactly one warning per empty-skylink record; and
the spec-modelled dispatcher gives the same outcome (in particular the same
blocked/failed counts) whether or not empty-identifier items are present. -/
theorem c8_empty_identifiers_dropped (env : SweepEnv) (items : List BlockedSkylink)
    (now : Nat) (bad : String → Bool) (pitems : List PendingItem)
    (hauth : ∀ b, errFiltered (env.authority b) = none)
    (hw : ∀ t, errFiltered (env.writeCP t) = none) :
    (∀ b ∈ (sweepAndBlock env (FetchResult.ok items) now).submissions, "" ∉ b) ∧
    (sweepAndBlock env (FetchResult.ok items) now).warnings =
      items.countP (fun sl => sl.skylink == "") ∧
    dispatch bad pitems = dispatch bad (pitems.filter (fun it => it.identifier != "")) := by
  have hauth2 : ∀ b, errFiltered (blockSkylinksErr env b) = none := fun b =>
    errFiltered_map_addContext _ _ (hauth b)
  refine ⟨?_, ?_, ?_⟩
  · intro b hb hmem
    rw [sweepAndBlock_ok_submissions] at hb
    obtain ⟨c, hc, rfl⟩ := mem_submissions_processChunks env _ b hb
    obtain ⟨sl, hsl, hsk⟩ := List.mem_map.mp hmem
    exact absurd hsk (bne_iff_ne.mp (List.mem_filter.mp hsl).2)
  · have hpc := processChunks_ok env hauth2 hw (chunksOf skylinksChunk (sortByAdded items))
    have hwar : (sweepAndBlock env (FetchResult.ok items) now).warnings =
        ((chunksOf skylinksChunk (sortByAdded items)).map warningsOf).sum := by
      simp only [sweepAndBlock, hpc]
    have hfun : (chunksOf skylinksChunk (sortByAdded items)).map warningsOf =
        (chunksOf skylinksChunk (sortByAdded items)).map
          (List.countP (fun sl => sl.skylink == "")) := by
      have : warningsOf = List.countP (fun sl => sl.skylink == "") := by
        funext c
        rw [warningsOf, List.countP_eq_length_filter]
      rw [this]
    rw [hwar, hfun, ← List.countP_flatten, chunksOf_flatten skylinksChunk (by decide)]
    exact (List.perm_insertionSort tsLE items).countP_eq _
  · have hidem : (pitems.filter (fun it => it.identifier != "")).filter
        (fun it => it.identifier != "") = pitems.filter (fun it => it.identifier != "") :=
      List.filter_eq_self.mpr (fun a ha => (List.mem_filter.mp ha).2)
    rw [dispatch, dispatch, hidem]

/-- C8 witness: one empty-skylink record next to a normal one, and a
dispatcher input consisting of a single empty-identifier item. -/
theorem c8_empty_identifiers_dropped_witness :
    "" ∉ (["a"] : List String) ∧
    (sweepAndBlock env0 (FetchResult.ok [⟨"", 4⟩, ⟨"a", 2⟩]) 9).warnings =
      ([⟨"", 4⟩, ⟨"a", 2⟩] : List BlockedSkylink).countP (fun sl => sl.skylink == "") ∧
    dispatch (fun _ => false) [⟨"", 7⟩] =
      dispatch (fun _ => false)
        (([⟨"", 7⟩] : List PendingItem).filter (fun it => it.identifier != "")) := by
  have h := c8_empty_identifiers_dropped env0 [⟨"", 4⟩, ⟨"a", 2⟩] 9
    (fun _ => false) [⟨"", 7⟩] (fun _ => rfl) (fun _ => rfl)
  exact ⟨h.1 ["a"] (by decide), h.2.1, h.2.2⟩

/-- C9: once the sentinel lock has been acquired (it was free beforehand),
`writeToNginxCachePurger` removes it on every exit path — including when the
open fails and when a write fails mid-way. -/
theorem c9_lock_released_on_all_paths (env : NginxEnv) (fs : NginxFS)
    (sls : List String) (h : fs.lockExists = false) :
    (writeToNginxCachePurger env fs sls).fs.lockExists = false := by
  rw [writeToNginxCachePurger, if_neg (by rw [h]; exact Bool.false_ne_true)]
  split <;> rfl

/-- C9 witness: the second write fails mid-way, the lock is still released. -/
theorem c9_lock_released_on_all_paths_witness :
    (writeToNginxCachePurger nenvW ⟨false, some "z".data⟩ ["a", "b"]).fs.lockExists =
      false :=
  c9_lock_released_on_all_paths nenvW ⟨false, some "z".data⟩ ["a", "b"] rfl

/-- C10 counterexample: in the no-pending-work path (blocker.go line 93) the
checkpoint-write error is returned unfiltered, so a "no entries updated"
error is not treated as success there: the sweep reports it. -/
theorem c10_no_entries_updated_counterexample :
    ¬ ((sweepAndBlock envNEUWrite FetchResult.noDocuments 7).error = none) := by decide

/-- C10 (amended): for every sweep in which the store returns records,
authority and checkpoint-write errors whose messages contain
"no entries updated" are treated as success: every chunk is still submitted,
every checkpoint write still happens, and the sweep reports no error.  (In
the no-pending-work path the write error is returned as-is.) -/
theorem c10_no_entries_updated_swallowed (env : SweepEnv) (items : List BlockedSkylink)
    (now : Nat)
    (hauth : ∀ b, errFiltered (env.authority b) = none)
    (hw : ∀ t, errFiltered (env.writeCP t) = none) :
    (sweepAndBlock env (FetchResult.ok items) now).error = none ∧
    (sweepAndBlock env (FetchResult.ok items) now).submissions =
      (chunksOf skylinksChunk (sortByAdded items)).map chunkFilter ∧
    (sweepAndBlock env (FetchResult.ok items) now).cpWrites =
      (chunksOf skylinksChunk (sortByAdded items)).map chunkLatest ++ [now] := by
  have hauth2 : ∀ b, errFiltered (blockSkylinksErr env b) = none := fun b =>
    errFiltered_map_addContext _ _ (hauth b)
  have hpc := processChunks_ok env hauth2 hw (chunksOf skylinksChunk (sortByAdded items))
  refine ⟨?_, ?_, ?_⟩ <;> simp only [sweepAndBlock, hpc, hw now]

/-- C10 witness: the store's checkpoint writes always fail with
"no entries updated", yet the sweep completes and reports no error. -/
theorem c10_no_entries_updated_swallowed_witness :
    (sweepAndBlock envNEUWrite (FetchResult.ok [⟨"a", 2⟩]) 9).error = none ∧
    (sweepAndBlock envNEUWrite (FetchResult.ok [⟨"a", 2⟩]) 9).submissions =
      (chunksOf skylinksChunk (sortByAdded [⟨"a", 2⟩])).map chunkFilter ∧
    (sweepAndBlock envNEUWrite (FetchResult.ok [⟨"a", 2⟩]) 9).cpWrites =
      (chunksOf skylinksChunk (sortByAdded [⟨"a", 2⟩])).map chunkLatest ++ [9] := by
  have hcp : errFiltered (some "no entries updated") = none := by decide
  exact c10_no_entries_updated_swallowed envNEUWrite [⟨"a", 2⟩] 9
    (fun _ => rfl) (fun _ => hcp)

end Blocker
